import Mathlib

/-!
# Leaderboard service: shallow embedding and verification

This file embeds the core of the leaderboard service
(`src/leaderboard/models.py`, `src/leaderboard/database.py`,
`src/leaderboard/handler.py`) in Lean 4 and proves or refutes the
specification claims about it.

Modelling conventions:
* Scores are real numbers fixed to three decimal places for key purposes
  (the source formats them with `"%015.3f"`), so a score is modelled
  exactly as an integer count of milli-units (`score = m / 1000`).
* Timestamps are modelled as integers (ordering is all that matters).
* The DynamoDB storage is modelled as the list of items a query returns;
  `get_leaderboard`'s in-memory conversion/sort/rank pass is embedded as a
  pure function on that list.
* Python's `list.sort` (Timsort) is stable; it is modelled by Mathlib's
  stable `List.insertionSort` with the same comparison relation.
-/

namespace Leaderboard

/-- `ScoreType` enum from `models.py`: supported score types. -/
inductive ScoreType where
  | HIGH_SCORE
  | FASTEST_TIME
  | LONGEST_TIME
deriving DecidableEq

/-- The string value backing each `ScoreType` member (`models.py`). -/
def ScoreType.value : ScoreType → String
  | .HIGH_SCORE => "HIGH_SCORE"
  | .FASTEST_TIME => "FASTEST_TIME"
  | .LONGEST_TIME => "LONGEST_TIME"

/-- `ScoreType(s)` constructor lookup: `some t` when `s` is the value of a
member, otherwise `none` (Python raises `ValueError`, caught by callers). -/
def scoreTypeOfString (s : String) : Option ScoreType :=
  if s = "HIGH_SCORE" then some .HIGH_SCORE
  else if s = "FASTEST_TIME" then some .FASTEST_TIME
  else if s = "LONGEST_TIME" then some .LONGEST_TIME
  else none

/-- Modelled from the spec: `database.py` imports `LeaderboardType` from
`models.py`, but the copy of `models.py` under `src/` does not define it;
its three constructors are those `database.py` matches on, which coincide
with the spec's ranking semantics. -/
inductive LeaderboardType where
  | HIGH_SCORE
  | FASTEST_TIME
  | LONGEST_TIME
deriving DecidableEq

/-- `LabelType` enum from `models.py`: supported label types. -/
inductive LabelType where
  | INITIALS
  | USERNAME
  | TEAM_NAME
  | CUSTOM
deriving DecidableEq

/-- The string value backing each `LabelType` member (`models.py`). -/
def LabelType.value : LabelType → String
  | .INITIALS => "INITIALS"
  | .USERNAME => "USERNAME"
  | .TEAM_NAME => "TEAM_NAME"
  | .CUSTOM => "CUSTOM"

/-- `LabelType(s)` with the fallback of `database.py` lines 96-99: an
unknown string maps to `CUSTOM`. -/
def labelTypeOfStringWithFallback (s : String) : LabelType :=
  if s = "INITIALS" then .INITIALS
  else if s = "USERNAME" then .USERNAME
  else if s = "TEAM_NAME" then .TEAM_NAME
  else if s = "CUSTOM" then .CUSTOM
  else .CUSTOM

/-! ## Decimal formatting (`f"{x:015.3f}"`)

`submit_score` builds the sort key with Python's fixed-point format of
minimum width 15 and 3 decimals.  With scores in milli-units the integer
part is `m / 1000` and the fractional digits are `m % 1000`; the whole is
left-padded with `'0'` to width 15 (`'-'` counts toward the width for
negative values, which Python places before the padding). -/

/-- The character for a single decimal digit. -/
def digitChar (d : Nat) : Char :=
  match d with
  | 0 => '0' | 1 => '1' | 2 => '2' | 3 => '3' | 4 => '4'
  | 5 => '5' | 6 => '6' | 7 => '7' | 8 => '8' | 9 => '9'
  | _ => '*'

/-- Decimal digits of `n`, most significant first, by fuel recursion
(`natDigits` supplies fuel `n`, which always suffices). `[]` for `0`. -/
def natDigitsAux : Nat → Nat → List Char
  | 0, _ => []
  | f + 1, n =>
    if n = 0 then []
    else natDigitsAux f (n / 10) ++ [digitChar (n % 10)]

/-- Decimal digit string of `n`, most significant first; `"0"` for `0`. -/
def natDigits (n : Nat) : List Char :=
  if n = 0 then ['0'] else natDigitsAux n n

/-- Left-pad a character list with `'0'` to width `w`. -/
def padLeft (w : Nat) (l : List Char) : List Char :=
  List.replicate (w - l.length) '0' ++ l

/-- The digit part of `f"{x:.3f}"` for a non-negative `x = m / 1000`,
with the integer part left-padded to width `w`. -/
def fmtMilliNat (w : Nat) (m : Nat) : List Char :=
  padLeft w (natDigits (m / 1000)) ++ '.' :: padLeft 3 (natDigits (m % 1000))

/-- `f"{x:015.3f}"` for `x = m / 1000` (milli-units, possibly negative):
total minimum width 15, three decimals, zero-padded after the sign. -/
def fmt015_3 (m : Int) : List Char :=
  if m < 0 then '-' :: fmtMilliNat 10 m.natAbs else fmtMilliNat 11 m.toNat

/-- The composite sort key of `submit_score` (`database.py` line 49):
`f"{score_type_value}#{score:015.3f}"`, with the raw score value
(the code comment records that score type no longer determines sorting). -/
def submitScoreSortKey (st : ScoreType) (m : Int) : String :=
  ⟨(st.value.data ++ '#' :: fmt015_3 m)⟩

/-- The configured maximum whole score referenced by the spec and the
legacy tests (`999999999`). -/
def MAX_SCORE : Nat := 999999999

/-! ## Submission path

`ScoreSubmission` (`models.py`) validates `score: float = Field(..., ge=0)`;
a negative score raises `ValidationError` before any storage call.
`database.submit_score` itself performs no range validation: it formats
whatever score it receives and stores the item. -/

/-- The pydantic bound `ge=0` on `ScoreSubmission.score`: the only numeric
score validation on the submission path. -/
def validateSubmissionScore (m : Int) : Except String Int :=
  if m < 0 then .error ("ValidationError") else .ok m

/-- The submission pipeline for the score field: request validation
(`ScoreSubmission`) followed by `submit_score`'s key construction; returns
the stored sort key. No upper bound is checked anywhere. -/
def submitViaApi (st : ScoreType) (m : Int) : Except String String :=
  match validateSubmissionScore m with
  | .error e => .error e
  | .ok v => .ok (submitScoreSortKey st v)

/-! ## Key decoding

No decode operation exists under `src/`; the spec (§2, §4.1) requires the
encoder to "support decoding back to a numeric score". -/

/-- Numeric read-back of a formatted decimal: digits accumulate in base 10
and the `'.'` separator is skipped, yielding milli-units. -/
def parseMilliAux : Nat → List Char → Nat
  | acc, [] => acc
  | acc, c :: cs =>
    if c = '.' then parseMilliAux acc cs
    else parseMilliAux (10 * acc + (c.toNat - 48)) cs

/-- Raw numeric decode of a storage key: drop the semantic tag up to `'#'`
and read the decimal part back as milli-units. -/
def decodeKeyMilli (key : String) : Nat :=
  parseMilliAux 0 ((key.data.dropWhile (fun c => c ≠ '#')).drop 1)

/-- Modelled from the spec: no decode exists under `src/`; §4.1's encoding
rule inverts as `MAX_SCORE − value` for the descending semantics
(HIGH_SCORE, LONGEST_TIME) and as the value itself for FASTEST_TIME. -/
def specDecode (st : ScoreType) (key : String) : Nat :=
  match st with
  | .FASTEST_TIME => decodeKeyMilli key
  | _ => MAX_SCORE * 1000 - decodeKeyMilli key

/-! ## Leaderboard assembly (`get_leaderboard`, `database.py` 73-135) -/

/-- One DynamoDB item as stored for a game (the fields `get_leaderboard`
reads). `score_type` is kept verbatim as stored; it is never read by
`get_leaderboard`. -/
structure StoredItem where
  label : String
  label_type : String
  score : Int
  score_type : String
  timestamp : Int
deriving DecidableEq

/-- The `RawEntry` dict built for each item (`database.py` 85-110):
label-type parsing with `CUSTOM` fallback; `score_type` is dropped. -/
structure RawEntry where
  label : String
  label_type : LabelType
  score : Int
  created_at_timestamp : Int
deriving DecidableEq

/-- Conversion of one stored item to a raw entry (`database.py` 93-110). -/
def toRawEntry (i : StoredItem) : RawEntry :=
  { label := i.label
    label_type := labelTypeOfStringWithFallback i.label_type
    score := i.score
    created_at_timestamp := i.timestamp }

/-- Comparison for descending sort (`sort(key=score, reverse=True)`):
stable, elements compare by score only. -/
def descRel (a b : RawEntry) : Prop := b.score ≤ a.score

/-- Comparison for ascending sort (`sort(key=score)`). -/
def ascRel (a b : RawEntry) : Prop := a.score ≤ b.score

instance : DecidableRel descRel := fun a b => inferInstanceAs (Decidable (_ ≤ _))
instance : DecidableRel ascRel := fun a b => inferInstanceAs (Decidable (_ ≤ _))

instance : IsTotal RawEntry descRel := ⟨fun a b => le_total b.score a.score⟩

instance : IsTrans RawEntry descRel := ⟨fun _ _ _ h₁ h₂ => le_trans h₂ h₁⟩

instance : IsTotal RawEntry ascRel := ⟨fun a b => le_total a.score b.score⟩

instance : IsTrans RawEntry ascRel := ⟨fun _ _ _ h₁ h₂ => le_trans h₁ h₂⟩

/-- The in-memory sort of `get_leaderboard` (`database.py` 112-121):
descending by score for HIGH_SCORE and LONGEST_TIME, ascending for
FASTEST_TIME; Python's stable sort modelled by `List.insertionSort`. -/
def sortEntries (lt : LeaderboardType) (l : List RawEntry) : List RawEntry :=
  match lt with
  | .HIGH_SCORE => List.insertionSort descRel l
  | .LONGEST_TIME => List.insertionSort descRel l
  | .FASTEST_TIME => List.insertionSort ascRel l

/-- A ranked leaderboard entry (`models.py` / `database.py` 126-132). -/
structure LeaderboardEntry where
  rank : Nat
  label : String
  label_type : LabelType
  score : Int
  created_at_timestamp : Int
deriving DecidableEq

/-- Rank assignment (`enumerate(raw_entries[:limit], 1)`,
`database.py` 123-133). -/
def withRanks (l : List RawEntry) : List LeaderboardEntry :=
  (List.enumFrom 1 l).map fun p =>
    { rank := p.1
      label := p.2.label
      label_type := p.2.label_type
      score := p.2.score
      created_at_timestamp := p.2.created_at_timestamp }

/-- `get_leaderboard` after the storage query: convert, sort, truncate to
`limit`, rank densely from 1. -/
def get_leaderboard (lt : LeaderboardType) (limit : Nat)
    (items : List StoredItem) : List LeaderboardEntry :=
  withRanks ((sortEntries lt (items.map toRawEntry)).take limit)

/-! ## Handler-level validation (`handler.py` 89-96) -/

/-- The handler's leaderboard endpoint after parameter parsing: the limit
is validated to `[1, 100]`, rejecting with `BadRequestError` before the
database is queried; otherwise the database result is returned. -/
def handler_get_leaderboard (lt : LeaderboardType) (limit : Int)
    (items : List StoredItem) : Except String (List LeaderboardEntry) :=
  if limit < 1 ∨ 100 < limit then
    .error ("Invalid limit: must be an integer between 1 and 100")
  else
    .ok (get_leaderboard lt limit.toNat items)

/-! ## Score-type discovery (`get_all_score_types_for_game`,
`database.py` 140-159) -/

/-- `get_all_score_types_for_game` after the projection query: collect the
set of parseable score types, silently skipping values that raise
`ValueError`. The Python function returns `list(set)`; the set itself is
the deterministic content. -/
def get_all_score_types_for_game (stored : List String) : Finset ScoreType :=
  stored.foldr
    (fun s acc =>
      match scoreTypeOfString s with
      | some t => insert t acc
      | none => acc)
    ∅

/-! ## Verification infrastructure: decimal digit strings -/

/-- The ten decimal digit characters. -/
def digitChars : List Char := ['0', '1', '2', '3', '4', '5', '6', '7', '8', '9']

/-- A character is a decimal digit. -/
def isDigitCh (c : Char) : Prop := c ∈ digitChars

instance : DecidablePred isDigitCh := fun c =>
  inferInstanceAs (Decidable (c ∈ digitChars))

/-- Numeric value of a digit character. -/
def dv (c : Char) : Nat := c.toNat - 48

/-- Value of a digit string read as a decimal number (most significant
digit first). -/
def listVal : List Char → Nat
  | [] => 0
  | c :: cs => dv c * 10 ^ cs.length + listVal cs

theorem digitChar_isDigit : ∀ d < 10, isDigitCh (digitChar d) := by decide

theorem dv_digitChar : ∀ d < 10, dv (digitChar d) = d := by decide

theorem digitChar_lt_iff :
    ∀ c₁ ∈ digitChars, ∀ c₂ ∈ digitChars, (c₁ < c₂ ↔ dv c₁ < dv c₂) := by decide

theorem digitChar_eq_iff :
    ∀ c₁ ∈ digitChars, ∀ c₂ ∈ digitChars, (c₁ = c₂ ↔ dv c₁ = dv c₂) := by decide

theorem digitChars_ne_dot : ∀ c ∈ digitChars, c ≠ '.' := by decide

theorem dv_le_nine : ∀ c ∈ digitChars, dv c ≤ 9 := by decide

theorem listVal_lt (l : List Char) (hd : ∀ c ∈ l, isDigitCh c) :
    listVal l < 10 ^ l.length := by
  induction l with
  | nil => simp [listVal]
  | cons c cs ih =>
    have hc : dv c ≤ 9 := dv_le_nine c (hd c (by simp))
    have hcs := ih fun x hx => hd x (by simp [hx])
    have h1 : dv c * 10 ^ cs.length ≤ 9 * 10 ^ cs.length :=
      Nat.mul_le_mul_right _ hc
    calc listVal (c :: cs) = dv c * 10 ^ cs.length + listVal cs := rfl
      _ < dv c * 10 ^ cs.length + 10 ^ cs.length := by omega
      _ ≤ 9 * 10 ^ cs.length + 10 ^ cs.length := by omega
      _ = 10 ^ (cs.length + 1) := by ring
      _ = 10 ^ (c :: cs).length := by simp

theorem listVal_append_single (l : List Char) (c : Char) :
    listVal (l ++ [c]) = 10 * listVal l + dv c := by
  induction l with
  | nil => simp [listVal]
  | cons x xs ih =>
    show listVal (x :: (xs ++ [c])) = _
    simp only [listVal, ih, List.length_append, List.length_cons, List.length_nil]
    ring

theorem natDigitsAux_spec (f : Nat) :
    ∀ n ≤ f, (∀ c ∈ natDigitsAux f n, isDigitCh c) ∧ listVal (natDigitsAux f n) = n := by
  induction f with
  | zero =>
    intro n hn
    interval_cases n
    exact ⟨by simp [natDigitsAux], by simp [natDigitsAux, listVal]⟩
  | succ f ih =>
    intro n hn
    by_cases h0 : n = 0
    · subst h0
      exact ⟨by simp [natDigitsAux], by simp [natDigitsAux, listVal]⟩
    · have hrec : n / 10 ≤ f := by omega
      obtain ⟨ihd, ihv⟩ := ih (n / 10) hrec
      have hmod : n % 10 < 10 := Nat.mod_lt _ (by omega)
      constructor
      · intro c hc
        simp only [natDigitsAux, if_neg h0, List.mem_append, List.mem_singleton] at hc
        rcases hc with hc | hc
        · exact ihd c hc
        · subst hc; exact digitChar_isDigit _ hmod
      · simp only [natDigitsAux, if_neg h0, listVal_append_single, ihv,
          dv_digitChar _ hmod]
        omega

theorem natDigits_isDigit (n : Nat) : ∀ c ∈ natDigits n, isDigitCh c := by
  unfold natDigits
  by_cases h : n = 0
  · simp [h]; decide
  · simp only [if_neg h]
    exact (natDigitsAux_spec n n le_rfl).1

theorem listVal_natDigits (n : Nat) : listVal (natDigits n) = n := by
  unfold natDigits
  by_cases h : n = 0
  · simp [h, listVal, dv]
  · simp only [if_neg h]
    exact (natDigitsAux_spec n n le_rfl).2

theorem natDigitsAux_length (f : Nat) :
    ∀ n ≤ f, ∀ w, n < 10 ^ w → (natDigitsAux f n).length ≤ w := by
  induction f with
  | zero =>
    intro n hn w _
    interval_cases n
    simp [natDigitsAux]
  | succ f ih =>
    intro n hn w hw
    by_cases h0 : n = 0
    · simp [natDigitsAux, h0]
    · have hw1 : 1 ≤ w := by
        by_contra h
        have : w = 0 := by omega
        subst this
        simp at hw
        omega
      have hrec : n / 10 ≤ f := by omega
      have hdiv : n / 10 < 10 ^ (w - 1) := by
        have h10 : 10 ^ w = 10 ^ (w - 1) * 10 := by
          conv_lhs => rw [show w = (w - 1) + 1 by omega]
          ring
        rw [h10] at hw
        omega
      have := ih (n / 10) hrec (w - 1) hdiv
      simp only [natDigitsAux, if_neg h0, List.length_append, List.length_singleton]
      omega

theorem natDigits_length {n w : Nat} (hw : 1 ≤ w) (hn : n < 10 ^ w) :
    (natDigits n).length ≤ w := by
  unfold natDigits
  by_cases h : n = 0
  · simpa [h] using hw
  · simp only [if_neg h]
    exact natDigitsAux_length n n le_rfl w hn

theorem padLeft_length {w : Nat} {l : List Char} (h : l.length ≤ w) :
    (padLeft w l).length = w := by
  simp [padLeft]
  omega

theorem padLeft_isDigit {w : Nat} {l : List Char} (hd : ∀ c ∈ l, isDigitCh c) :
    ∀ c ∈ padLeft w l, isDigitCh c := by
  intro c hc
  simp only [padLeft, List.mem_append, List.mem_replicate] at hc
  rcases hc with ⟨_, hc⟩ | hc
  · subst hc; decide
  · exact hd c hc

theorem listVal_replicate_zero (k : Nat) (l : List Char) :
    listVal (List.replicate k '0' ++ l) = listVal l := by
  induction k with
  | zero => simp
  | succ k ih =>
    simp only [List.replicate_succ, List.cons_append, listVal]
    simpa [show dv '0' = 0 from rfl] using ih

theorem listVal_padLeft (w : Nat) (l : List Char) :
    listVal (padLeft w l) = listVal l :=
  listVal_replicate_zero _ _

/-! ## Verification infrastructure: lexicographic comparison -/

theorem lex_cons_iff {a b : Char} {l₁ l₂ : List Char} :
    List.Lex (· < ·) (a :: l₁) (b :: l₂) ↔
      a < b ∨ (a = b ∧ List.Lex (· < ·) l₁ l₂) := by
  constructor
  · intro h
    cases h with
    | rel h => exact Or.inl h
    | cons h => exact Or.inr ⟨rfl, h⟩
  · intro h
    rcases h with h | ⟨rfl, h⟩
    · exact List.Lex.rel h
    · exact List.Lex.cons h

theorem lex_append_left_iff (C : List Char) {L₁ L₂ : List Char} :
    List.Lex (· < ·) (C ++ L₁) (C ++ L₂) ↔ List.Lex (· < ·) L₁ L₂ := by
  induction C with
  | nil => simp
  | cons c cs ih =>
    simp only [List.cons_append, lex_cons_iff, lt_irrefl, false_or, true_and, ih]

theorem lex_append_iff : ∀ (A A' B B' : List Char),
    A.length = A'.length →
    (List.Lex (· < ·) (A ++ B) (A' ++ B') ↔
      List.Lex (· < ·) A A' ∨ (A = A' ∧ List.Lex (· < ·) B B'))
  | [], [], B, B', _ => by simp [List.Lex.not_nil_right]
  | [], _ :: _, B, B', hlen => by simp at hlen
  | _ :: _, [], B, B', hlen => by simp at hlen
  | a :: T, a' :: T', B, B', hlen => by
    have hT : T.length = T'.length := by simpa using hlen
    have ih := lex_append_iff T T' B B' hT
    simp only [List.cons_append, lex_cons_iff, ih, List.cons.injEq]
    constructor
    · rintro (hr | ⟨rfl, (hr | ⟨rfl, hr⟩)⟩)
      · exact Or.inl (Or.inl hr)
      · exact Or.inl (Or.inr ⟨rfl, hr⟩)
      · exact Or.inr ⟨⟨rfl, rfl⟩, hr⟩
    · rintro ((hr | ⟨rfl, hr⟩) | ⟨⟨rfl, rfl⟩, hr⟩)
      · exact Or.inl hr
      · exact Or.inr ⟨rfl, Or.inl hr⟩
      · exact Or.inr ⟨rfl, Or.inr ⟨rfl, hr⟩⟩

theorem mul_add_lt_iff {P d₁ d₂ v₁ v₂ : Nat} (h₁ : v₁ < P) (h₂ : v₂ < P) :
    d₁ * P + v₁ < d₂ * P + v₂ ↔ d₁ < d₂ ∨ (d₁ = d₂ ∧ v₁ < v₂) := by
  constructor
  · intro h
    rcases Nat.lt_trichotomy d₁ d₂ with hd | hd | hd
    · exact Or.inl hd
    · subst hd; exact Or.inr ⟨rfl, by omega⟩
    · exfalso
      have h3 : (d₂ + 1) * P ≤ d₁ * P := Nat.mul_le_mul_right P (by omega)
      have h4 : (d₂ + 1) * P = d₂ * P + P := by ring
      omega
  · rintro (hd | ⟨rfl, hv⟩)
    · have h3 : (d₁ + 1) * P ≤ d₂ * P := Nat.mul_le_mul_right P (by omega)
      have h4 : (d₁ + 1) * P = d₁ * P + P := by ring
      omega
    · omega

theorem lex_digit_iff :
    ∀ (L₁ L₂ : List Char), L₁.length = L₂.length →
      (∀ c ∈ L₁, isDigitCh c) → (∀ c ∈ L₂, isDigitCh c) →
      (List.Lex (· < ·) L₁ L₂ ↔ listVal L₁ < listVal L₂) := by
  intro L₁
  induction L₁ with
  | nil =>
    intro L₂ h _ _
    have : L₂ = [] := List.length_eq_zero.mp h.symm
    subst this
    simp [listVal, List.Lex.not_nil_right]
  | cons c T ih =>
    intro L₂ h hd₁ hd₂
    match L₂, h with
    | c' :: T', h =>
      have hT : T.length = T'.length := by simpa using h
      have hcd : c ∈ digitChars := hd₁ c (by simp)
      have hcd' : c' ∈ digitChars := hd₂ c' (by simp)
      have hTd : ∀ x ∈ T, isDigitCh x := fun x hx => hd₁ x (by simp [hx])
      have hTd' : ∀ x ∈ T', isDigitCh x := fun x hx => hd₂ x (by simp [hx])
      have hv₁ : listVal T < 10 ^ T.length := listVal_lt T hTd
      have hv₂ : listVal T' < 10 ^ T.length := by
        rw [hT]; exact listVal_lt T' hTd'
      rw [show listVal (c :: T) = dv c * 10 ^ T.length + listVal T from rfl,
        show listVal (c' :: T') = dv c' * 10 ^ T'.length + listVal T' from rfl,
        ← hT, lex_cons_iff, mul_add_lt_iff hv₁ hv₂,
        digitChar_lt_iff c hcd c' hcd', digitChar_eq_iff c hcd c' hcd',
        ih T' hT hTd hTd']

theorem lex_padded_iff {w m n : Nat} (hw : 1 ≤ w) (hm : m < 10 ^ w)
    (hn : n < 10 ^ w) :
    List.Lex (· < ·) (padLeft w (natDigits m)) (padLeft w (natDigits n)) ↔ m < n := by
  rw [lex_digit_iff _ _
      (by rw [padLeft_length (natDigits_length hw hm),
        padLeft_length (natDigits_length hw hn)])
      (padLeft_isDigit (natDigits_isDigit m))
      (padLeft_isDigit (natDigits_isDigit n)),
    listVal_padLeft, listVal_padLeft, listVal_natDigits, listVal_natDigits]

theorem padded_eq_iff {w m n : Nat} :
    padLeft w (natDigits m) = padLeft w (natDigits n) ↔ m = n := by
  constructor
  · intro h
    have := congrArg listVal h
    rwa [listVal_padLeft, listVal_padLeft, listVal_natDigits, listVal_natDigits] at this
  · rintro rfl; rfl

theorem fmtMilliNat_lex_iff {m n : Nat} (hm : m / 1000 < 10 ^ 11)
    (hn : n / 1000 < 10 ^ 11) :
    (List.Lex (· < ·) (fmtMilliNat 11 m) (fmtMilliNat 11 n) ↔ m < n) := by
  have hlen : (padLeft 11 (natDigits (m / 1000))).length =
      (padLeft 11 (natDigits (n / 1000))).length := by
    rw [padLeft_length (natDigits_length (by omega) hm),
      padLeft_length (natDigits_length (by omega) hn)]
  have hmod₁ : m % 1000 < 10 ^ 3 := by omega
  have hmod₂ : n % 1000 < 10 ^ 3 := by omega
  rw [fmtMilliNat, fmtMilliNat, lex_append_iff _ _ _ _ hlen,
    lex_cons_iff, lex_padded_iff (by omega) hm hn, padded_eq_iff,
    lex_padded_iff (by omega) hmod₁ hmod₂]
  simp only [lt_irrefl, false_or, true_and]
  omega

theorem submitScoreSortKey_lt_iff (st : ScoreType) {m n : Nat}
    (hm : m ≤ MAX_SCORE * 1000) (hn : n ≤ MAX_SCORE * 1000) :
    (submitScoreSortKey st (m : Int) < submitScoreSortKey st (n : Int) ↔ m < n) := by
  have hfmt : ∀ k : Nat, fmt015_3 (k : Int) = fmtMilliNat 11 k := by
    intro k
    rw [fmt015_3, if_neg (by omega), Int.toNat_natCast]
  rw [String.lt_iff_toList_lt]
  have : ∀ k : Nat, (submitScoreSortKey st (k : Int)).toList =
      (st.value.data ++ ['#']) ++ fmtMilliNat 11 k := by
    intro k
    show st.value.data ++ '#' :: fmt015_3 (k : Int) = _
    rw [hfmt, List.append_cons]
  rw [this m, this n]
  exact (lex_append_left_iff _).trans
    (fmtMilliNat_lex_iff (m := m) (n := n)
      (by unfold MAX_SCORE at hm; omega)
      (by unfold MAX_SCORE at hn; omega))

/-! ## Verification infrastructure: numeric read-back of keys -/

theorem parseMilliAux_append (X : List Char) :
    ∀ (acc : Nat) (Y : List Char),
      parseMilliAux acc (X ++ Y) = parseMilliAux (parseMilliAux acc X) Y := by
  induction X with
  | nil => intro acc Y; rfl
  | cons c cs ih =>
    intro acc Y
    by_cases hc : c = '.'
    · subst hc
      simpa [parseMilliAux] using ih acc Y
    · simp only [List.cons_append, parseMilliAux, if_neg hc]
      exact ih _ Y

theorem parseMilliAux_digits (L : List Char) (hd : ∀ c ∈ L, isDigitCh c) :
    ∀ acc : Nat, parseMilliAux acc L = acc * 10 ^ L.length + listVal L := by
  induction L with
  | nil => intro acc; simp [parseMilliAux, listVal]
  | cons c cs ih =>
    intro acc
    have hc : c ≠ '.' := digitChars_ne_dot c (hd c (by simp))
    have ihcs := ih fun x hx => hd x (by simp [hx])
    simp only [parseMilliAux, if_neg hc, ihcs]
    show (10 * acc + dv c) * 10 ^ cs.length + listVal cs = _
    simp only [listVal, List.length_cons]
    ring

theorem parseMilliAux_dot (acc : Nat) (L : List Char) :
    parseMilliAux acc ('.' :: L) = parseMilliAux acc L := by
  simp [parseMilliAux]

theorem parse_fmtMilliNat (m : Nat) : parseMilliAux 0 (fmtMilliNat 11 m) = m := by
  have hmod : m % 1000 < 10 ^ 3 := by omega
  have hlenB : (padLeft 3 (natDigits (m % 1000))).length = 3 :=
    padLeft_length (natDigits_length (by omega) hmod)
  have hdA : ∀ c ∈ padLeft 11 (natDigits (m / 1000)), isDigitCh c :=
    padLeft_isDigit (natDigits_isDigit _)
  have hdB : ∀ c ∈ padLeft 3 (natDigits (m % 1000)), isDigitCh c :=
    padLeft_isDigit (natDigits_isDigit _)
  rw [fmtMilliNat, parseMilliAux_append, parseMilliAux_digits _ hdA,
    parseMilliAux_dot, parseMilliAux_digits _ hdB, listVal_padLeft,
    listVal_padLeft, listVal_natDigits, listVal_natDigits, hlenB]
  have h3 : (10 : Nat) ^ 3 = 1000 := by norm_num
  rw [h3]
  omega

theorem dropWhile_until_hash :
    ∀ (C : List Char), (∀ c ∈ C, c ≠ '#') → ∀ L : List Char,
      (C ++ '#' :: L).dropWhile (fun c => c ≠ '#') = '#' :: L := by
  intro C hC L
  induction C with
  | nil => simp [List.dropWhile_cons]
  | cons c cs ih =>
    have hc : (decide (c ≠ '#')) = true := by
      simpa using hC c (by simp)
    simp only [List.cons_append, List.dropWhile_cons, hc, if_true]
    exact ih fun x hx => hC x (by simp [hx])

theorem scoreType_value_no_hash (st : ScoreType) :
    ∀ c ∈ st.value.data, c ≠ '#' := by
  cases st <;> decide

theorem fmt015_3_natCast (m : Nat) : fmt015_3 (m : Int) = fmtMilliNat 11 m := by
  rw [fmt015_3, if_neg (by omega), Int.toNat_natCast]

theorem decode_submitScoreSortKey (st : ScoreType) (m : Nat) :
    decodeKeyMilli (submitScoreSortKey st (m : Int)) = m := by
  show parseMilliAux 0
    (((st.value.data ++ '#' :: fmt015_3 (m : Int)).dropWhile
      (fun c => c ≠ '#')).drop 1) = m
  rw [fmt015_3_natCast, dropWhile_until_hash _ (scoreType_value_no_hash st),
    List.drop_one, List.tail_cons]
  exact parse_fmtMilliNat m

/-! ## Verification infrastructure: sorting -/

theorem snd_mem_of_mem_enumFrom {α : Type} :
    ∀ (l : List α) (n : Nat) (p : Nat × α), p ∈ List.enumFrom n l → p.2 ∈ l := by
  intro l
  induction l with
  | nil => intro n p hp; simp [List.enumFrom] at hp
  | cons x xs ih =>
    intro n p hp
    rcases List.mem_cons.mp hp with h | h
    · rw [h]; exact List.mem_cons_self _ _
    · exact List.mem_cons_of_mem _ (ih (n + 1) p h)

theorem pairwise_enumFrom {α : Type} {R : α → α → Prop} :
    ∀ (l : List α) (n : Nat), List.Pairwise R l →
      List.Pairwise (fun p q => R p.2 q.2) (List.enumFrom n l) := by
  intro l
  induction l with
  | nil => intro n _; simp [List.enumFrom]
  | cons x xs ih =>
    intro n h
    rcases List.pairwise_cons.mp h with ⟨hx, hxs⟩
    refine List.pairwise_cons.mpr ⟨?_, ih (n + 1) hxs⟩
    intro q hq
    exact hx q.2 (snd_mem_of_mem_enumFrom xs (n + 1) q hq)

theorem pairwise_withRanks {R : Int → Int → Prop} {l : List RawEntry}
    (h : List.Pairwise (fun a b => R a.score b.score) l) :
    List.Pairwise (fun a b => R a.score b.score) (withRanks l) := by
  unfold withRanks
  rw [List.pairwise_map]
  exact pairwise_enumFrom l 1 h

theorem length_withRanks (l : List RawEntry) : (withRanks l).length = l.length := by
  simp [withRanks]

theorem map_rank_withRanks (l : List RawEntry) :
    (withRanks l).map (fun e => e.rank) = List.range' 1 l.length := by
  unfold withRanks
  rw [List.map_map]
  exact List.enumFrom_map_fst 1 l

theorem length_sortEntries (lt : LeaderboardType) (l : List RawEntry) :
    (sortEntries lt l).length = l.length := by
  cases lt <;> simp [sortEntries, List.length_insertionSort]

theorem sorted_sortEntries_desc (lt : LeaderboardType) (l : List RawEntry)
    (h : lt = .HIGH_SCORE ∨ lt = .LONGEST_TIME) :
    List.Sorted descRel (sortEntries lt l) := by
  rcases h with rfl | rfl <;> exact List.sorted_insertionSort descRel l

theorem sorted_sortEntries_asc (l : List RawEntry) :
    List.Sorted ascRel (sortEntries .FASTEST_TIME l) :=
  List.sorted_insertionSort ascRel l

theorem get_leaderboard_sorted {R : Int → Int → Prop} (lt : LeaderboardType)
    (limit : Nat) (items : List StoredItem)
    (h : List.Pairwise (fun a b : RawEntry => R a.score b.score)
      (sortEntries lt (items.map toRawEntry))) :
    List.Pairwise (fun a b : LeaderboardEntry => R a.score b.score)
      (get_leaderboard lt limit items) :=
  pairwise_withRanks h.take

theorem length_get_leaderboard (lt : LeaderboardType) (limit : Nat)
    (items : List StoredItem) :
    (get_leaderboard lt limit items).length = min items.length limit := by
  rw [get_leaderboard, length_withRanks, List.length_take, length_sortEntries,
    List.length_map]
  omega

/-! ## Claims -/

/-- C1 (counterexample): the claim's own example fails on the code:
`submit_score` with HIGH_SCORE and score 103.0 produces the key
`"HIGH_SCORE#00000000103.000"` (raw score), not the claimed
`"HIGH_SCORE#00999999896.000"` (`MAX_SCORE − score`). -/
theorem C1_counterexample :
    submitScoreSortKey .HIGH_SCORE ((103000 : Nat) : Int) =
      "HIGH_SCORE#00000000103.000" ∧
    submitScoreSortKey .HIGH_SCORE ((103000 : Nat) : Int) ≠
      "HIGH_SCORE#00999999896.000" := by
  constructor
  · decide
  · decide

/-- C1 (amended): for every score type and every valid score
(`m ≤ MAX_SCORE·1000` milli-units), the storage key produced by
`submit_score` has the form `"<semantic_tag>#<encoded>"` where `<encoded>`
is the 15-character zero-padded fixed-point decimal representation of the
RAW score itself (its numeric read-back is `m`); in particular encoding
HIGH_SCORE with score 103.0 yields `"HIGH_SCORE#00000000103.000"`. -/
theorem C1_key_encoding (st : ScoreType) (m : Nat) (hm : m ≤ MAX_SCORE * 1000) :
    submitScoreSortKey st (m : Int) = ⟨st.value.data ++ '#' :: fmtMilliNat 11 m⟩ ∧
    (fmtMilliNat 11 m).length = 15 ∧
    parseMilliAux 0 (fmtMilliNat 11 m) = m ∧
    submitScoreSortKey .HIGH_SCORE ((103000 : Nat) : Int) =
      "HIGH_SCORE#00000000103.000" := by
  refine ⟨?_, ?_, parse_fmtMilliNat m, by decide⟩
  · show (⟨st.value.data ++ '#' :: fmt015_3 (m : Int)⟩ : String) = _
    rw [fmt015_3_natCast]
  · have hdiv : m / 1000 < 10 ^ 11 := by unfold MAX_SCORE at hm; omega
    have hmod : m % 1000 < 10 ^ 3 := by omega
    rw [fmtMilliNat, List.length_append, List.length_cons,
      padLeft_length (natDigits_length (by omega) hdiv),
      padLeft_length (natDigits_length (by omega) hmod)]

/-- C1 (witness): the amended key-shape theorem applied at HIGH_SCORE with
score 103.0 (103000 milli-units). -/
theorem C1_witness :
    submitScoreSortKey .HIGH_SCORE ((103000 : Nat) : Int) =
      ⟨ScoreType.HIGH_SCORE.value.data ++ '#' :: fmtMilliNat 11 103000⟩ :=
  (C1_key_encoding .HIGH_SCORE 103000 (by decide)).1

/-- C2 (counterexample): two records with equal scores are NOT ordered by
submission timestamp: the input `[A(ts 100), B(ts 50)]` keeps the
later-submitted A first; reversing the input's iteration order changes the
output, so the output is not permutation-invariant either. -/
theorem C2_counterexample :
    (get_leaderboard .HIGH_SCORE 10
        [⟨"AAA", "CUSTOM", 5000, "HIGH_SCORE", 100⟩,
         ⟨"BBB", "CUSTOM", 5000, "HIGH_SCORE", 50⟩]).map
      (fun e => (e.label, e.created_at_timestamp)) = [("AAA", 100), ("BBB", 50)] ∧
    (50 : Int) < 100 ∧
    get_leaderboard .HIGH_SCORE 10
        [⟨"BBB", "CUSTOM", 5000, "HIGH_SCORE", 50⟩,
         ⟨"AAA", "CUSTOM", 5000, "HIGH_SCORE", 100⟩] ≠
      get_leaderboard .HIGH_SCORE 10
        [⟨"AAA", "CUSTOM", 5000, "HIGH_SCORE", 100⟩,
         ⟨"BBB", "CUSTOM", 5000, "HIGH_SCORE", 50⟩] := by
  refine ⟨by decide, by decide, by decide⟩

/-- C2 (amended): the sort is stable in the Python sense: records with
identical scores keep their relative order from the input iteration order
(not their submission-timestamp order); any equal-score pair appearing as
a sublist of the input remains a sublist of the sorted sequence. -/
theorem C2_tie_break (lt : LeaderboardType) (l : List RawEntry)
    (a b : RawEntry) (hs : a.score = b.score)
    (hin : List.Sublist [a, b] l) :
    List.Sublist [a, b] (sortEntries lt l) := by
  cases lt
  · exact List.pair_sublist_insertionSort (le_of_eq hs.symm) hin
  · exact List.pair_sublist_insertionSort (le_of_eq hs) hin
  · exact List.pair_sublist_insertionSort (le_of_eq hs.symm) hin

/-- C2 (witness): the stability theorem applied to a concrete equal-score
pair in input order. -/
theorem C2_witness :
    List.Sublist
      [(⟨"AAA", .CUSTOM, 5000, 100⟩ : RawEntry), ⟨"BBB", .CUSTOM, 5000, 50⟩]
      (sortEntries .HIGH_SCORE
        [⟨"AAA", .CUSTOM, 5000, 100⟩, ⟨"BBB", .CUSTOM, 5000, 50⟩]) :=
  C2_tie_break .HIGH_SCORE _ _ _ rfl (List.Sublist.refl _)

/-- C3: a leaderboard request with `limit < 1` or `limit > 100` fails in
the handler with the limit-validation error (surfaced as
`BadRequestError("Invalid limit: ...")`) before any result is assembled,
and limits in `[1, 100]` never produce that error. -/
theorem C3_limit_validation (lt : LeaderboardType) (limit : Int)
    (items : List StoredItem) :
    ((limit < 1 ∨ 100 < limit) →
      handler_get_leaderboard lt limit items =
        .error ("Invalid limit: must be an integer between 1 and 100")) ∧
    (1 ≤ limit → limit ≤ 100 →
      handler_get_leaderboard lt limit items =
        .ok (get_leaderboard lt limit.toNat items)) := by
  constructor
  · intro h
    rw [handler_get_leaderboard, if_pos h]
  · intro h₁ h₂
    rw [handler_get_leaderboard, if_neg (by omega)]

/-- C3 (witness): limit 0 and 101 are rejected, limit 10 succeeds. -/
theorem C3_witness :
    handler_get_leaderboard .HIGH_SCORE 0 [] =
      .error ("Invalid limit: must be an integer between 1 and 100") ∧
    handler_get_leaderboard .HIGH_SCORE 101 [] =
      .error ("Invalid limit: must be an integer between 1 and 100") ∧
    handler_get_leaderboard .HIGH_SCORE 10 [] =
      .ok (get_leaderboard .HIGH_SCORE (10 : Int).toNat []) :=
  ⟨(C3_limit_validation .HIGH_SCORE 0 []).1 (Or.inl (by decide)),
   (C3_limit_validation .HIGH_SCORE 101 []).1 (Or.inr (by decide)),
   (C3_limit_validation .HIGH_SCORE 10 []).2 (by decide) (by decide)⟩

/-- C4 (counterexample): a score exceeding the configured maximum
(10^9 > MAX_SCORE) is NOT rejected: the submission pipeline succeeds and
the record reaches storage with key `"HIGH_SCORE#01000000000.000"`;
no `EncodingError` exists on this path. -/
theorem C4_counterexample :
    submitViaApi .HIGH_SCORE 1000000000000 =
      .ok ("HIGH_SCORE#01000000000.000") ∧
    ((MAX_SCORE * 1000 : Nat) : Int) < 1000000000000 := by
  constructor
  · rfl
  · decide

/-- C4 (amended): the key encoder itself performs no range validation and
never fails; a negative score is rejected upstream by the request
validation layer (pydantic `ge=0`, a `ValidationError`), while any
non-negative score — including scores above the configured maximum — is
encoded and stored without error. -/
theorem C4_score_validation (st : ScoreType) (m : Int) :
    (m < 0 → submitViaApi st m = .error ("ValidationError")) ∧
    (0 ≤ m → submitViaApi st m = .ok (submitScoreSortKey st m)) := by
  constructor
  · intro h
    rw [submitViaApi, validateSubmissionScore, if_pos h]
  · intro h
    rw [submitViaApi, validateSubmissionScore, if_neg (by omega)]

/-- C4 (witness): a negative score is rejected by validation; an
over-maximum score is accepted and encoded. -/
theorem C4_witness :
    submitViaApi .HIGH_SCORE (-1000) = .error ("ValidationError") ∧
    submitViaApi .FASTEST_TIME 1000000000000 =
      .ok (submitScoreSortKey .FASTEST_TIME 1000000000000) :=
  ⟨(C4_score_validation .HIGH_SCORE (-1000)).1 (by decide),
   (C4_score_validation .FASTEST_TIME 1000000000000).2 (by decide)⟩

/-- C5: the assembler output is sorted by the direction the requested
leaderboard type implies — descending score for HIGH_SCORE and
LONGEST_TIME, ascending for FASTEST_TIME — and the spec's concrete
example yields P2, P3, P4, P1 with ranks 1 through 4. -/
theorem C5_sort_direction (limit : Nat) (items : List StoredItem) :
    List.Pairwise (fun a b : LeaderboardEntry => b.score ≤ a.score)
      (get_leaderboard .HIGH_SCORE limit items) ∧
    List.Pairwise (fun a b : LeaderboardEntry => b.score ≤ a.score)
      (get_leaderboard .LONGEST_TIME limit items) ∧
    List.Pairwise (fun a b : LeaderboardEntry => a.score ≤ b.score)
      (get_leaderboard .FASTEST_TIME limit items) ∧
    get_leaderboard .HIGH_SCORE 10
        [⟨"P1", "CUSTOM", 1000, "HIGH_SCORE", 1⟩,
         ⟨"P2", "CUSTOM", 3000, "HIGH_SCORE", 2⟩,
         ⟨"P3", "CUSTOM", 2000, "HIGH_SCORE", 3⟩,
         ⟨"P4", "CUSTOM", 1500, "HIGH_SCORE", 4⟩] =
      [⟨1, "P2", .CUSTOM, 3000, 2⟩, ⟨2, "P3", .CUSTOM, 2000, 3⟩,
       ⟨3, "P4", .CUSTOM, 1500, 4⟩, ⟨4, "P1", .CUSTOM, 1000, 1⟩] := by
  refine ⟨?_, ?_, ?_, by decide⟩
  · exact get_leaderboard_sorted (R := fun x y => y ≤ x) _ limit items
      (sorted_sortEntries_desc _ _ (Or.inl rfl))
  · exact get_leaderboard_sorted (R := fun x y => y ≤ x) _ limit items
      (sorted_sortEntries_desc _ _ (Or.inr rfl))
  · exact get_leaderboard_sorted (R := fun x y => x ≤ y) _ limit items
      (sorted_sortEntries_asc _)

/-- C6: the assembler output has length `min (len input) limit`, its rank
fields are exactly the consecutive integers `1..len(output)`, and an
empty input yields an empty output with no error. -/
theorem C6_length_ranks (lt : LeaderboardType) (limit : Nat)
    (items : List StoredItem) :
    (get_leaderboard lt limit items).length = min items.length limit ∧
    (get_leaderboard lt limit items).map (fun e => e.rank) =
      List.range' 1 ((get_leaderboard lt limit items).length) ∧
    get_leaderboard lt limit [] = [] := by
  refine ⟨length_get_leaderboard lt limit items, ?_, ?_⟩
  · rw [get_leaderboard, map_rank_withRanks, length_withRanks]
  · cases lt <;> simp [get_leaderboard, sortEntries, withRanks]

/-- C7: with FASTEST_TIME, strictly larger valid scores produce strictly
lexicographically larger storage keys (so ascending key order is ascending
score order). -/
theorem C7_fastest_monotone (m₁ m₂ : Nat) (h₁ : m₁ ≤ MAX_SCORE * 1000)
    (h₂ : m₂ ≤ MAX_SCORE * 1000) (h : m₁ < m₂) :
    submitScoreSortKey .FASTEST_TIME (m₁ : Int) <
      submitScoreSortKey .FASTEST_TIME (m₂ : Int) :=
  (submitScoreSortKey_lt_iff .FASTEST_TIME h₁ h₂).mpr h

/-- C7 (witness): the monotonicity theorem at scores 95.3 and 108.7. -/
theorem C7_witness :
    submitScoreSortKey .FASTEST_TIME ((95300 : Nat) : Int) <
      submitScoreSortKey .FASTEST_TIME ((108700 : Nat) : Int) :=
  C7_fastest_monotone 95300 108700 (by decide) (by decide) (by decide)

/-- C8 (counterexample): composing the code's encoder with the
spec-modelled decode (which inverts §4.1's `MAX_SCORE − score` rule for
HIGH_SCORE) does not round-trip: score 103.0 decodes to 999999896.0. -/
theorem C8_counterexample :
    specDecode .HIGH_SCORE
        (submitScoreSortKey .HIGH_SCORE ((103000 : Nat) : Int)) =
      999999896000 ∧ (999999896000 : Nat) ≠ 103000 := by
  constructor
  · decide
  · decide

/-- C8 (amended): the code's encoder stores the raw score, so the decode
that round-trips is the plain numeric read-back of the key's digit part:
for every score type and every non-negative score, parsing the digits
after `'#'` recovers the score exactly. -/
theorem C8_roundtrip (st : ScoreType) (m : Nat) :
    decodeKeyMilli (submitScoreSortKey st (m : Int)) = m :=
  decode_submitScoreSortKey st m

/-- C9: score-type discovery returns exactly the set of distinct known
score types present in storage, silently skipping every stored value that
does not parse as a known `ScoreType` (total function, no error). -/
theorem C9_discovery (stored : List String) (t : ScoreType) :
    t ∈ get_all_score_types_for_game stored ↔
      ∃ s ∈ stored, scoreTypeOfString s = some t := by
  induction stored with
  | nil => simp [get_all_score_types_for_game]
  | cons s ss ih =>
    show t ∈ (match scoreTypeOfString s with
      | some u => insert u (get_all_score_types_for_game ss)
      | none => get_all_score_types_for_game ss) ↔ _
    cases hp : scoreTypeOfString s with
    | none =>
      simp only [List.mem_cons]
      constructor
      · intro h
        rcases ih.mp h with ⟨x, hx, hxt⟩
        exact ⟨x, Or.inr hx, hxt⟩
      · rintro ⟨x, hx | hx, hxt⟩
        · rw [hx, hp] at hxt; cases hxt
        · exact ih.mpr ⟨x, hx, hxt⟩
    | some u =>
      rw [Finset.mem_insert]
      simp only [List.mem_cons]
      constructor
      · rintro (rfl | h)
        · exact ⟨s, Or.inl rfl, hp⟩
        · rcases ih.mp h with ⟨x, hx, hxt⟩
          exact ⟨x, Or.inr hx, hxt⟩
      · rintro ⟨x, hx | hx, hxt⟩
        · rw [hx, hp] at hxt
          cases hxt
          exact Or.inl rfl
        · exact Or.inr (ih.mpr ⟨x, hx, hxt⟩)

/-- C10: `get_leaderboard` never reads the stored `score_type`: its output
is invariant under arbitrary rewriting of every record's `score_type`, its
length counts records of all score types (`min (len items) limit`), and a
concrete mixed-type store yields both records merged into one ranking. -/
theorem C10_no_score_type_filter (lt : LeaderboardType) (limit : Nat)
    (items : List StoredItem) (f : StoredItem → String) :
    get_leaderboard lt limit (items.map fun i => { i with score_type := f i }) =
      get_leaderboard lt limit items ∧
    (get_leaderboard lt limit items).length = min items.length limit ∧
    (get_leaderboard .HIGH_SCORE 10
        [⟨"A", "CUSTOM", 100, "HIGH_SCORE", 1⟩,
         ⟨"B", "CUSTOM", 200, "FASTEST_TIME", 2⟩]).length = 2 := by
  refine ⟨?_, length_get_leaderboard lt limit items, by decide⟩
  rw [get_leaderboard, get_leaderboard, List.map_map,
    show toRawEntry ∘ (fun i => { i with score_type := f i }) = toRawEntry from
      funext fun i => rfl]

end Leaderboard
